import Mathlib

/-! # Verification of `testutil/db.go` (tsdb test-fixture harness)

Shallow embedding of the fixture generator (`GenSeries`), the in-memory
sample iterator (`listSeriesIterator` with `At`/`Next`/`Seek`), the
ingestion loop (`createHead`) and the block-materialisation entry point
(`CreateBlock`), together with proofs of the specification's claims.

Modelling conventions:
* Go `int64` timestamps are modelled as `Int` (no claim depends on 64-bit
  wrap-around, so no `% 2^64` reduction is needed).
* Go `float64` sample values are opaque to every claim (they are only
  drawn from `math/rand` and stored, never inspected), so they are
  modelled as `Int` draws from an abstract random stream `rng : Nat → Int`;
  the k-th `rand.Float64()` call of a run is modelled as `rng k`.
* A Go `map[string]string` is modelled as an association list together
  with the map-insert operation (`insertLbl`); `labels.FromMap` sorts by
  key, but every claim below is insensitive to key order, so the list in
  insertion order stands for the map.
* Go runtime panics (negative `make` capacity, out-of-range indexing) are
  modelled by `Option`: `none` means the Go program panics.
-/

/-- Go struct `sample { t int64; v float64 }` from `testutil/db.go`. -/
structure Sample where
  t : Int
  v : Int
deriving DecidableEq, Repr

/-- Constant `defaultLabelName = "labelName"`. -/
def defaultLabelName : String := "labelName"

/-- Constant `defaultLabelValue = "labelValue"`. -/
def defaultLabelValue : String := "labelValue"

/-! ## `strconv.Itoa`

`strconv.Itoa` is Go standard-library code (an external collaborator), so
it is modelled here as a decimal renderer: the digits of `n` in base 10,
most significant first, as characters, with `0` rendered as `"0"`. -/

/-- Base-10 digit extraction, least significant digit first.  The digit
count of `n` is at most `n`, so a fuel of `n` always suffices; the fuel
only makes the recursion structural (and hence kernel-computable). -/
def itoaCore : Nat → Nat → List Nat
  | 0, _ => []
  | fuel + 1, n => if n = 0 then [] else n % 10 :: itoaCore fuel (n / 10)

/-- The decimal digit list rendered by `strconv.Itoa`, least significant
digit first (`[0]` for the input `0`). -/
def itoaDigits (n : Nat) : List Nat :=
  if n = 0 then [0] else itoaCore n n

/-- Model of Go's `strconv.Itoa` restricted to naturals (every call site in
`testutil/db.go` passes a non-negative loop counter). -/
def itoa (n : Nat) : String :=
  String.mk ((itoaDigits n).reverse.map Nat.digitChar)

/-! ## Label generation (`GenSeries`, lines 101-106)

```go
lbls := make(map[string]string, labelCount)
lbls[defaultLabelName] = strconv.Itoa(i)
for j := 1; len(lbls) < labelCount; j++ {
    lbls[defaultLabelName+strconv.Itoa(j)] = defaultLabelValue + strconv.Itoa(j)
}
```
-/

/-- Map insert on the association-list model of `map[string]string`:
overwrite the value if the key is present, otherwise append the binding. -/
def insertLbl (m : List (String × String)) (key val : String) : List (String × String) :=
  if m.any (fun p => p.fst = key) then
    m.map (fun p => if p.fst = key then (key, val) else p)
  else
    m ++ [(key, val)]

/-- The `for j := 1; len(lbls) < labelCount; j++` loop.  The loop body
inserts a fresh key every iteration (proved below), so the map grows by one
binding per iteration and `labelCount` units of fuel always suffice; the
fuel parameter only makes the recursion structural. -/
def fillLabels (labelCount : Nat) : Nat → Nat → List (String × String) → List (String × String)
  | 0, _, m => m
  | fuel + 1, j, m =>
    if m.length < labelCount then
      fillLabels labelCount fuel (j + 1)
        (insertLbl m (defaultLabelName ++ itoa j) (defaultLabelValue ++ itoa j))
    else m

/-- The label map built for series index `i` (insertion order). -/
def genLabels (i labelCount : Nat) : List (String × String) :=
  fillLabels labelCount labelCount 1 (insertLbl [] defaultLabelName (itoa i))

/-! ## Sample generation (`GenSeries`, lines 107-110)

```go
samples := make([]tsdbutil.Sample, 0, maxt-mint+1)
for t := mint; t < maxt; t++ {
    samples = append(samples, sample{t: t, v: rand.Float64()})
}
```
The loop appends one sample per timestamp `mint, mint+1, …, maxt-1`; its
iteration count is `(maxt - mint).toNat`.  `base` is the index of the first
`rand.Float64()` call this series consumes from the shared stream. -/

/-- The sample list built by the inner `for t := mint; t < maxt; t++` loop. -/
def genSamples (rng : Nat → Int) (base : Nat) (mint : Int) (count : Nat) : List Sample :=
  (List.range count).map (fun (d : Nat) => Sample.mk (mint + (d : Int)) (rng (base + d)))

/-- One generated series: the label map paired with its samples
(`newSeries(lbls, samples)` stores exactly these two components). -/
structure SeriesF where
  lbls : List (String × String)
  samples : List Sample
deriving DecidableEq, Repr

/-- Function `GenSeries(totalSeries, labelCount int, mint, maxt int64) []tsdb.Series`.

Result `none` models a Go runtime panic: `make([]tsdbutil.Sample, 0,
maxt-mint+1)` panics when the capacity `maxt-mint+1` is negative.  The
check `totalSeries == 0 || labelCount == 0` happens before any `make`, as
in the source.  `totalSeries` and `labelCount` are Go `int`s used only as
non-negative counts by every claim, so they are modelled as `Nat`. -/
def GenSeries (rng : Nat → Int) (totalSeries labelCount : Nat) (mint maxt : Int) :
    Option (List SeriesF) :=
  if totalSeries = 0 ∨ labelCount = 0 then some []
  else if maxt - mint + 1 < 0 then none
  else
    some ((List.range totalSeries).map (fun i =>
      ⟨genLabels i labelCount,
       genSamples rng (i * (maxt - mint).toNat) mint (maxt - mint).toNat⟩))

/-! ## The sample iterator (`listSeriesIterator`) -/

/-- Go struct `listSeriesIterator { list []tsdbutil.Sample; idx int }`. -/
structure ListSeriesIterator where
  list : List Sample
  idx : Int
deriving DecidableEq, Repr

/-- Constructor `newListSeriesIterator(list)`: the cursor starts at the before-first sentinel `-1`. -/
def newListSeriesIterator (list : List Sample) : ListSeriesIterator :=
  ⟨list, -1⟩

/-- Method `func (it *listSeriesIterator) At() (int64, float64) { s := it.list[it.idx]; … }`.
`none` models the Go index-out-of-range panic. -/
def ListSeriesIterator.At (it : ListSeriesIterator) : Option (Int × Int) :=
  if 0 ≤ it.idx then (it.list[it.idx.toNat]?).map (fun s => (s.t, s.v)) else none

/-- Method `func (it *listSeriesIterator) Next() bool { it.idx++; return it.idx < len(it.list) }`. -/
def ListSeriesIterator.Next (it : ListSeriesIterator) : Bool × ListSeriesIterator :=
  let it' : ListSeriesIterator := ⟨it.list, it.idx + 1⟩
  (it'.idx < (it'.list.length : Int), it')

/-- The loop of Go's `sort.Search(n, f)`:
```go
i, j := 0, n
for i < j {
    h := int(uint(i+j) >> 1)
    if !f(h) { i = h + 1 } else { j = h }
}
return i
```
Each iteration shrinks `j - i` by at least one, so a fuel of `n` (the
initial value of `j - i`) always reaches the loop's exit; the fuel
parameter only makes the recursion structural. -/
def searchLoop (f : Nat → Bool) : Nat → Nat → Nat → Nat
  | 0, i, _ => i
  | fuel + 1, i, j =>
    if i < j then
      let h := (i + j) / 2
      if f h then searchLoop f fuel i h else searchLoop f fuel (h + 1) j
    else i

/-- Go's `sort.Search(n, f)`. -/
def sortSearch (n : Nat) (f : Nat → Bool) : Nat :=
  searchLoop f n 0 n

/-- Method `func (it *listSeriesIterator) Seek(t int64) bool`:
```go
if it.idx == -1 { it.idx = 0 }
// Do binary search between current position and end.
it.idx = sort.Search(len(it.list)-it.idx, func(i int) bool {
    s := it.list[i+it.idx]
    return s.T() >= t
})
return it.idx < len(it.list)
```
The closure reads the pre-call `it.idx` (the assignment happens only after
`sort.Search` returns) and the result assigned to `it.idx` is the offset
*relative* to that pre-call index.  `sort.Search` only probes offsets in
`[0, n)`, all in range, so the closure's indexing never panics; Go's `n =
len - idx` would be negative for `idx > len`, making `sort.Search` return
`0` at once, which the saturating `Nat` subtraction reproduces. -/
def ListSeriesIterator.Seek (it : ListSeriesIterator) (t : Int) : Bool × ListSeriesIterator :=
  let idx0 : Nat := if it.idx = -1 then 0 else it.idx.toNat
  let r := sortSearch (it.list.length - idx0) (fun i =>
    match it.list[i + idx0]? with
    | some s => decide (s.t ≥ t)
    | none => false)
  ((r : Int) < (it.list.length : Int), ⟨it.list, (r : Int)⟩)

/-! ## Ingestion (`createHead`, lines 48-73)

```go
app := head.Appender()
for _, s := range series {
    ref := uint64(0)
    it := s.Iterator()
    for it.Next() {
        t, v := it.At()
        if ref != 0 {
            err := app.AddFast(ref, t, v)
            if err == nil { continue }
        }
        ref, err = app.Add(s.Labels(), t, v)
        Ok(tb, err)
    }
    Ok(tb, it.Err())
}
err = app.Commit()
```

The appender is a collaborator (`tsdb.Head.Appender()`, not under `src/`);
per the spec it exposes `fastAppend` (may fail, modelled by the oracle
`fastOk`) and `fullAppend` ("always succeeds in appending and yields a
fresh or stable reference", modelled by `addRef`; a failing `Add` would
abort the test through `Ok(tb, err)` and is outside every claim).  The
inner `for it.Next() { t, v := it.At() … }` loop enumerates the series'
sample list in order (that is exactly what the iterator-order theorem
below proves about `listSeriesIterator`), so it is embedded as a fold over
`f.samples`. -/

/-- A label map, as stored in a fixture. -/
abbrev Labels := List (String × String)

/-- One successful append recorded against the head: `AddFast(ref, t, v)`
or `Add(lbls, t, v)`.  A failed `AddFast` appends nothing and is not
recorded. -/
inductive AppendOp where
  | fast (ref : Nat) (t : Int) (v : Int)
  | full (lbls : Labels) (t : Int) (v : Int)
deriving DecidableEq, Repr

/-- The timestamp an append operation carries. -/
def AppendOp.time : AppendOp → Int
  | .fast _ t _ => t
  | .full _ t _ => t

/-- The appender collaborator's behaviour (references are `uint64` in Go,
used only as opaque non-zero cookies, so `Nat` models them). -/
structure Appender where
  fastOk : Nat → Int → Int → Bool
  addRef : Labels → Int → Int → Nat

/-- The body of the inner loop for one sample: try `AddFast` when a
reference is cached and fall back to `Add` otherwise, threading the
reference. -/
def appendSample (ap : Appender) (lbls : Labels) (st : Nat × List AppendOp) (s : Sample) :
    Nat × List AppendOp :=
  let (ref, log) := st
  if ref ≠ 0 ∧ ap.fastOk ref s.t s.v = true then
    (ref, log ++ [AppendOp.fast ref s.t s.v])
  else
    (ap.addRef lbls s.t s.v, log ++ [AppendOp.full lbls s.t s.v])

/-- One series' append loop: `ref := uint64(0)` then the sample loop. -/
def appendSeries (ap : Appender) (log : List AppendOp) (f : SeriesF) : List AppendOp :=
  (f.samples.foldl (appendSample ap f.lbls) (0, log)).2

/-- What `createHead` leaves behind: the sequence of successful appends
and how many times `app.Commit()` ran (the source calls it once, after the
series loop). -/
structure HeadResult where
  log : List AppendOp
  commits : Nat
deriving Repr

/-- Function `createHead(tb testing.TB, series []tsdb.Series) *tsdb.Head`. -/
def createHead (ap : Appender) (series : List SeriesF) : HeadResult :=
  ⟨series.foldl (appendSeries ap) [], 1⟩

/-! ## Block materialisation (`CreateBlock`, lines 34-46) -/

/-- Modelled from the spec: `head.MinTime()` is the buffer's minimum
observed timestamp (`tsdb.Head` is a collaborator, not under `src/`; spec
§6: "buffer exposes `minTime()`, `maxTime()` once committed").  `none`
stands for the sentinel an empty head reports, outside every claim. -/
def headMinTime (log : List AppendOp) : Option Int :=
  (log.map AppendOp.time).min?

/-- Modelled from the spec: `head.MaxTime()` is the buffer's maximum
observed timestamp. -/
def headMaxTime (log : List AppendOp) : Option Int :=
  (log.map AppendOp.time).max?

/-- The time bounds `CreateBlock` hands to the compaction collaborator in
`compactor.Write(dir, head, head.MinTime(), head.MaxTime()+1, nil)`. -/
structure CompactRequest where
  mint : Int
  maxt : Int
deriving DecidableEq, Repr

/-- Function `CreateBlock(tb testing.TB, dir string, series []tsdb.Series) string`:
ingest the series into a head, then request compaction with bounds
`[head.MinTime(), head.MaxTime()+1)`.  The filesystem work and the ULID
result are irrelevant to every claim; the model returns the requested
bounds. -/
def CreateBlock (ap : Appender) (series : List SeriesF) : Option CompactRequest :=
  let head := createHead ap series
  match headMinTime head.log, headMaxTime head.log with
  | some mn, some mx => some ⟨mn, mx + 1⟩
  | _, _ => none

/-! ## Helper definitions used by the claim statements -/

/-- The `j`-th synthesized extra label (loop counter `j = d + 1`):
`(defaultLabelName+strconv.Itoa(j), defaultLabelValue+strconv.Itoa(j))`. -/
def extraLabel (d : Nat) : String × String :=
  (defaultLabelName ++ itoa (d + 1), defaultLabelValue ++ itoa (d + 1))

/-- The extra labels a fixture with `k` label keys carries beyond the
distinguishing one: positions `1, …, k-1`. -/
def labelTail (k : Nat) : Labels :=
  (List.range (k - 1)).map extraLabel

/-- The label map state at entry of loop iteration `j`: the distinguishing
label followed by the extra labels `1, …, j-1`. -/
def lblState (v : String) (j : Nat) : Labels :=
  (defaultLabelName, v) :: labelTail j

/-- Iterate `it.Next()` a total of `m` times, keeping the final iterator state. -/
def runNext (it : ListSeriesIterator) : Nat → ListSeriesIterator
  | 0 => it
  | m + 1 => ((runNext it m).Next).2

/-! # Proof layer -/

/-! ## `itoa` is an injective, never-empty renderer -/

theorem ofDigits_itoaCore : ∀ fuel n : Nat, n ≤ fuel → Nat.ofDigits 10 (itoaCore fuel n) = n := by
  intro fuel
  induction fuel with
  | zero =>
    intro n hn
    interval_cases n
    simp [itoaCore, Nat.ofDigits]
  | succ fuel ih =>
    intro n hn
    show Nat.ofDigits 10 (if n = 0 then [] else n % 10 :: itoaCore fuel (n / 10)) = n
    split
    · simp_all [Nat.ofDigits]
    · rw [Nat.ofDigits_cons, ih (n / 10) (by omega)]
      omega

theorem ofDigits_itoaDigits (n : Nat) : Nat.ofDigits 10 (itoaDigits n) = n := by
  unfold itoaDigits
  split
  · simp_all [Nat.ofDigits]
  · exact ofDigits_itoaCore n n le_rfl

theorem itoaCore_lt : ∀ fuel n : Nat, ∀ d ∈ itoaCore fuel n, d < 10 := by
  intro fuel
  induction fuel with
  | zero => simp [itoaCore]
  | succ fuel ih =>
    intro n d hd
    by_cases h : n = 0
    · simp [itoaCore, h] at hd
    · simp only [itoaCore, if_neg h, List.mem_cons] at hd
      rcases hd with rfl | hd
      · omega
      · exact ih (n / 10) d hd

theorem itoaDigits_lt (n : Nat) : ∀ d ∈ itoaDigits n, d < 10 := by
  unfold itoaDigits
  split
  · simp
  · exact itoaCore_lt n n

theorem itoaDigits_ne_nil (n : Nat) : itoaDigits n ≠ [] := by
  unfold itoaDigits
  split
  · simp
  · rename_i h
    obtain ⟨m, rfl⟩ : ∃ m, n = m + 1 := ⟨n - 1, by omega⟩
    simp [itoaCore, h]

theorem digitChar_inj_fin : ∀ a b : Fin 10, Nat.digitChar a.val = Nat.digitChar b.val → a = b := by
  decide

theorem map_digitChar_inj (l1 : List Nat) :
    ∀ l2 : List Nat, (∀ d ∈ l1, d < 10) → (∀ d ∈ l2, d < 10) →
      l1.map Nat.digitChar = l2.map Nat.digitChar → l1 = l2 := by
  induction l1 with
  | nil =>
    intro l2 _ _ h
    cases l2 <;> simp_all
  | cons a l1 ih =>
    intro l2 h1 h2 h
    cases l2 with
    | nil => simp at h
    | cons b l2 =>
      simp only [List.map_cons, List.cons.injEq] at h
      have ha : a < 10 := h1 a (by simp)
      have hb : b < 10 := h2 b (by simp)
      have hab : a = b := by
        have := digitChar_inj_fin ⟨a, ha⟩ ⟨b, hb⟩ h.1
        exact congrArg Fin.val this
      have htl : l1 = l2 :=
        ih l2 (fun d hd => h1 d (by simp [hd])) (fun d hd => h2 d (by simp [hd])) h.2
      simp [hab, htl]

theorem itoa_injective : Function.Injective itoa := by
  intro m n h
  unfold itoa at h
  have hdata : (itoaDigits m).reverse.map Nat.digitChar =
      (itoaDigits n).reverse.map Nat.digitChar := by
    injection h
  have hrev : (itoaDigits m).reverse = (itoaDigits n).reverse :=
    map_digitChar_inj _ _
      (fun d hd => itoaDigits_lt m d (List.mem_reverse.mp hd))
      (fun d hd => itoaDigits_lt n d (List.mem_reverse.mp hd)) hdata
  have hdig : itoaDigits m = itoaDigits n := List.reverse_injective hrev
  calc m = Nat.ofDigits 10 (itoaDigits m) := (ofDigits_itoaDigits m).symm
    _ = Nat.ofDigits 10 (itoaDigits n) := by rw [hdig]
    _ = n := ofDigits_itoaDigits n

theorem itoa_length_pos (n : Nat) : 0 < (itoa n).length := by
  unfold itoa
  have := itoaDigits_ne_nil n
  simp only [String.length]
  simpa [List.length_pos] using this

/-! ## String-append helpers -/

theorem string_append_right_inj {s a b : String} (h : s ++ a = s ++ b) : a = b := by
  obtain ⟨da⟩ := a
  obtain ⟨db⟩ := b
  obtain ⟨ds⟩ := s
  simp only [String.ext_iff] at h ⊢
  simpa using h

theorem string_ne_append {s t : String} (ht : 0 < t.length) : s ≠ s ++ t := by
  intro h
  have := congrArg String.length h
  rw [String.length_append] at this
  omega

/-! ## Closed form of the label loop -/

theorem extraKey_inj {j1 j2 : Nat}
    (h : defaultLabelName ++ itoa j1 = defaultLabelName ++ itoa j2) : j1 = j2 :=
  itoa_injective (string_append_right_inj h)

theorem base_ne_extraKey (j : Nat) : defaultLabelName ≠ defaultLabelName ++ itoa j :=
  string_ne_append (itoa_length_pos j)

theorem labelTail_length (k : Nat) : (labelTail k).length = k - 1 := by
  simp [labelTail]

theorem lblState_length (v : String) (j : Nat) (hj : 1 ≤ j) :
    (lblState v j).length = j := by
  simp only [lblState, List.length_cons, labelTail_length]
  omega

theorem lblState_keys (v : String) (j : Nat) {key : String} :
    ((lblState v j).any (fun p => p.fst = key)) = true ↔
      key = defaultLabelName ∨ ∃ d < j - 1, key = defaultLabelName ++ itoa (d + 1) := by
  simp only [lblState, labelTail, extraLabel, List.any_cons, List.any_eq_true, Bool.or_eq_true,
    decide_eq_true_eq, List.mem_map, List.mem_range]
  constructor
  · rintro (h | ⟨p, ⟨d, hd, rfl⟩, h⟩)
    · exact Or.inl h.symm
    · exact Or.inr ⟨d, hd, h.symm⟩
  · rintro (rfl | ⟨d, hd, rfl⟩)
    · exact Or.inl rfl
    · exact Or.inr ⟨(defaultLabelName ++ itoa (d + 1), defaultLabelValue ++ itoa (d + 1)),
        ⟨d, hd, rfl⟩, rfl⟩

theorem insert_state (v : String) (j : Nat) (hj : 1 ≤ j) :
    insertLbl (lblState v j) (defaultLabelName ++ itoa j) (defaultLabelValue ++ itoa j) =
      lblState v (j + 1) := by
  unfold insertLbl
  rw [if_neg]
  · simp only [lblState, labelTail]
    rw [show j + 1 - 1 = (j - 1) + 1 by omega, List.range_succ, List.map_append]
    simp only [List.cons_append, List.map_cons, List.map_nil, extraLabel]
    rw [show j - 1 + 1 = j by omega]
  · rw [lblState_keys]
    push_neg
    constructor
    · intro h
      exact base_ne_extraKey j h.symm
    · intro d hd h
      have := extraKey_inj h
      omega

theorem fillLabels_spec (k : Nat) :
    ∀ (fuel j : Nat) (v : String), 1 ≤ j → j ≤ k → k ≤ j + fuel →
      fillLabels k fuel j (lblState v j) = lblState v k := by
  intro fuel
  induction fuel with
  | zero =>
    intro j v h1 h2 h3
    have : j = k := by omega
    subst this
    rfl
  | succ fuel ih =>
    intro j v h1 h2 h3
    show (if (lblState v j).length < k then _ else _) = _
    by_cases hjk : j < k
    · rw [if_pos (by rw [lblState_length v j h1]; omega)]
      rw [insert_state v j h1]
      exact ih (j + 1) v (by omega) (by omega) (by omega)
    · have hj : j = k := by omega
      subst hj
      rw [if_neg (by rw [lblState_length v j h1]; omega)]

theorem genLabels_eq (i k : Nat) (hk : 1 ≤ k) :
    genLabels i k = lblState (itoa i) k := by
  unfold genLabels
  have h1 : insertLbl [] defaultLabelName (itoa i) = lblState (itoa i) 1 := by
    simp [insertLbl, lblState, labelTail]
  rw [h1]
  exact fillLabels_spec k k 1 (itoa i) (by omega) hk (by omega)

/-! ## Claims about the generator -/

/-- Claim **C3, counterexample**: the claim quantifies over all times `a, b`, but
at `GenSeries(1, 1, 3, 0)` the slice allocation
`make([]tsdbutil.Sample, 0, maxt-mint+1)` has capacity `0-3+1 = -2 < 0`
and panics, so no fixtures are produced at all. -/
theorem C3_counterexample_negative_capacity :
    GenSeries (fun _ => 0) 1 1 3 0 = none := by
  rfl

/-- Claim **C3 (amended)**: for every `n, k ≥ 0` and times `a, b` with
`b ≥ a - 1` (so the capacity hint `b-a+1` is non-negative and the
construction does not panic), `GenSeries(n, k, a, b)` yields exactly `n`
fixtures (an empty result if `n = 0` or `k = 0`), each with exactly `k`
distinct label keys and exactly `max(0, b-a)` samples whose timestamps are
`a, a+1, …, b-1` in order. -/
theorem C3_cardinality (rng : Nat → Int) (n k : Nat) (a b : Int) (hb : a - 1 ≤ b) :
    ∃ fs, GenSeries rng n k a b = some fs ∧
      ((n = 0 ∨ k = 0) → fs = []) ∧
      (¬(n = 0 ∨ k = 0) → fs.length = n ∧ ∀ f ∈ fs,
        f.lbls.length = k ∧ (f.lbls.map Prod.fst).Nodup ∧
        f.samples.length = (b - a).toNat ∧
        f.samples.map Sample.t =
          (List.range (b - a).toNat).map (fun (d : Nat) => a + (d : Int))) := by
  unfold GenSeries
  by_cases h : n = 0 ∨ k = 0
  · rw [if_pos h]
    exact ⟨[], rfl, fun _ => rfl, fun hc => absurd h hc⟩
  · have hcap : ¬(b - a + 1 < 0) := by omega
    rw [if_neg h, if_neg hcap]
    refine ⟨_, rfl, fun hc => absurd hc h, fun _ => ⟨by simp, ?_⟩⟩
    intro f hf
    simp only [List.mem_map, List.mem_range] at hf
    obtain ⟨i, hi, rfl⟩ := hf
    have hk : 1 ≤ k := by omega
    refine ⟨?_, ?_, ?_, ?_⟩
    · rw [genLabels_eq i k hk, lblState_length _ _ hk]
    · rw [genLabels_eq i k hk]
      simp only [lblState, labelTail, List.map_cons, List.map_map]
      rw [List.nodup_cons]
      constructor
      · intro hmem
        simp only [List.mem_map, List.mem_range, Function.comp, extraLabel] at hmem
        obtain ⟨d, _, h'⟩ := hmem
        exact base_ne_extraKey (d + 1) h'.symm
      · have hinj : Function.Injective (Prod.fst ∘ extraLabel) := by
          intro d1 d2 hnn
          simp only [Function.comp, extraLabel] at hnn
          have := extraKey_inj hnn
          omega
        exact List.Nodup.map hinj (List.nodup_range _)
    · simp [genSamples]
    · simp [genSamples, List.map_map, Function.comp]

/-- Closed witness for `C3_cardinality` at the spec's concrete scenario
`generate(3, 2, 0, 5)`. -/
theorem C3_cardinality_witness :
    (0 : Int) - 1 ≤ 5 ∧
    ∃ fs, GenSeries (fun c => (c : Int)) 3 2 0 5 = some fs ∧
      ((3 = 0 ∨ 2 = 0) → fs = []) ∧
      (¬(3 = 0 ∨ 2 = 0) → fs.length = 3 ∧ ∀ f ∈ fs,
        f.lbls.length = 2 ∧ (f.lbls.map Prod.fst).Nodup ∧
        f.samples.length = ((5 : Int) - 0).toNat ∧
        f.samples.map Sample.t =
          (List.range ((5 : Int) - 0).toNat).map (fun (d : Nat) => (0 : Int) + (d : Int))) :=
  ⟨by decide, C3_cardinality (fun c => (c : Int)) 3 2 0 5 (by decide)⟩

/-- Claim **C4, counterexample**: the claim says any `maxTime < minTime` ends
normally with empty sample sequences, but `GenSeries(1, 1, 5, 0)` panics:
the capacity hint `maxt-mint+1 = -4` is negative. -/
theorem C4_counterexample_panic :
    GenSeries (fun _ => 0) 1 1 5 0 = none := by
  rfl

/-- Claim **C4 (amended)**: for `totalSeries ≥ 1`, `labelCount ≥ 1` and
`maxTime < minTime`, *provided* `maxTime ≥ minTime - 1` (i.e.
`maxTime = minTime - 1`, the only malformed range whose capacity hint
`maxt-mint+1` is still non-negative), `GenSeries` terminates normally and
every fixture's sample sequence is empty; for `maxTime < minTime - 1` the
negative capacity hint panics (`C4_counterexample_panic`). -/
theorem C4_empty_range (rng : Nat → Int) (n k : Nat) (a b : Int)
    (hn : 1 ≤ n) (hk : 1 ≤ k) (hlt : b < a) (hge : a - 1 ≤ b) :
    ∃ fs, GenSeries rng n k a b = some fs ∧ fs.length = n ∧ ∀ f ∈ fs, f.samples = [] := by
  unfold GenSeries
  have h0 : ¬(n = 0 ∨ k = 0) := by omega
  have hcap : ¬(b - a + 1 < 0) := by omega
  rw [if_neg h0, if_neg hcap]
  refine ⟨_, rfl, by simp, ?_⟩
  intro f hf
  simp only [List.mem_map, List.mem_range] at hf
  obtain ⟨i, hi, rfl⟩ := hf
  have hz : (b - a).toNat = 0 := by omega
  simp [genSamples, hz]

/-- Closed witness for `C4_empty_range` at `GenSeries(1, 1, 5, 4)`. -/
theorem C4_empty_range_witness :
    1 ≤ 1 ∧ (4 : Int) < 5 ∧ (5 : Int) - 1 ≤ 4 ∧
    ∃ fs, GenSeries (fun _ => 0) 1 1 5 4 = some fs ∧ fs.length = 1 ∧
      ∀ f ∈ fs, f.samples = [] :=
  ⟨by decide, by decide, by decide,
    C4_empty_range (fun _ => 0) 1 1 5 4 (by decide) (by decide) (by decide) (by decide)⟩

/-- Claim **C8**: two runs with the same `(totalSeries, labelCount, minTime,
maxTime)` but arbitrary (different) random value streams produce identical
label sets and identical sample timestamp sequences — only the values may
differ. -/
theorem C8_determinism (r1 r2 : Nat → Int) (n k : Nat) (a b : Int) :
    Option.map (List.map SeriesF.lbls) (GenSeries r1 n k a b) =
      Option.map (List.map SeriesF.lbls) (GenSeries r2 n k a b) ∧
    Option.map (List.map (fun f => f.samples.map Sample.t)) (GenSeries r1 n k a b) =
      Option.map (List.map (fun f => f.samples.map Sample.t)) (GenSeries r2 n k a b) := by
  unfold GenSeries
  split
  · exact ⟨rfl, rfl⟩
  · split
    · exact ⟨rfl, rfl⟩
    · constructor <;> simp [genSamples, List.map_map, Function.comp]

/-- Claim **C9, counterexample**: at `labelCount = 3` the two additional labels
do not carry one fixed repeated value: position 1 gets `"labelValue1"` and
position 2 gets `"labelValue2"`. -/
theorem C9_counterexample_value_varies :
    genLabels 0 3 = [("labelName", "0"),
      ("labelName1", "labelValue1"), ("labelName2", "labelValue2")] ∧
    ("labelValue1" : String) ≠ "labelValue2" := by
  decide

/-- Claim **C9 (amended)**: for `labelCount ≥ 2` and any series index `i`, the
additional labels beyond the distinguishing one are named by position
(base name concatenated with the position number `j`) and carry the value
`defaultLabelValue` concatenated with the same `j` — deterministic per
position and identical across series indices, but *varying* with the
position, not one fixed repeated value. -/
theorem C9_positional_names (i k : Nat) (hk : 2 ≤ k) :
    genLabels i k = (defaultLabelName, itoa i) ::
      (List.range (k - 1)).map (fun d =>
        (defaultLabelName ++ itoa (d + 1), defaultLabelValue ++ itoa (d + 1))) := by
  rw [genLabels_eq i k (by omega)]
  rfl

/-- Closed witness for `C9_positional_names` at `i = 1, k = 3`. -/
theorem C9_positional_names_witness :
    2 ≤ 3 ∧ genLabels 1 3 = (defaultLabelName, itoa 1) ::
      (List.range (3 - 1)).map (fun d =>
        (defaultLabelName ++ itoa (d + 1), defaultLabelValue ++ itoa (d + 1))) :=
  ⟨by decide, C9_positional_names 1 3 (by decide)⟩

/-- Claim **C10**: whenever `GenSeries` returns fixtures (with `totalSeries ≥ 1`,
`labelCount ≥ 1`), their label sets are pairwise distinct: fixture `i`
carries the base label `labelName` with value `itoa i`, and everything
beyond it is `labelTail k`, identical across fixtures. -/
theorem C10_pairwise_distinct_labels (rng : Nat → Int) (n k : Nat) (a b : Int)
    (fs : List SeriesF) (hn : 1 ≤ n) (hk : 1 ≤ k)
    (hfs : GenSeries rng n k a b = some fs) :
    (∀ (i j : Nat) (hi : i < fs.length) (hj : j < fs.length), i ≠ j →
      fs[i].lbls ≠ fs[j].lbls) ∧
    ∀ (i : Nat) (hi : i < fs.length),
      fs[i].lbls = (defaultLabelName, itoa i) :: labelTail k := by
  unfold GenSeries at hfs
  have h0 : ¬(n = 0 ∨ k = 0) := by omega
  rw [if_neg h0] at hfs
  by_cases hcap : b - a + 1 < 0
  · rw [if_pos hcap] at hfs
    cases hfs
  · rw [if_neg hcap] at hfs
    obtain rfl := Option.some.inj hfs
    have h2 : ∀ (i : Nat) (hi : i < ((List.range n).map (fun i =>
        SeriesF.mk (genLabels i k)
          (genSamples rng (i * (b - a).toNat) a (b - a).toNat))).length),
        ((List.range n).map (fun i =>
          SeriesF.mk (genLabels i k)
            (genSamples rng (i * (b - a).toNat) a (b - a).toNat)))[i].lbls =
          (defaultLabelName, itoa i) :: labelTail k := by
      intro i hi
      simp only [List.getElem_map, List.getElem_range]
      rw [genLabels_eq i k hk]
      rfl
    refine ⟨?_, h2⟩
    intro i j hi hj hij heq
    rw [h2 i hi, h2 j hj] at heq
    have hval : itoa i = itoa j := by
      have hhead := (List.cons.injEq _ _ _ _ ▸ heq).1
      exact congrArg Prod.snd hhead
    exact hij (itoa_injective hval)

/-- Closed witness for `C10_pairwise_distinct_labels` at
`GenSeries(2, 1, 0, 1)`. -/
theorem C10_pairwise_distinct_labels_witness :
    (∀ (i j : Nat)
        (hi : i < ([⟨[("labelName", "0")], [⟨0, 7⟩]⟩,
                    ⟨[("labelName", "1")], [⟨0, 7⟩]⟩] : List SeriesF).length)
        (hj : j < ([⟨[("labelName", "0")], [⟨0, 7⟩]⟩,
                    ⟨[("labelName", "1")], [⟨0, 7⟩]⟩] : List SeriesF).length), i ≠ j →
      ([⟨[("labelName", "0")], [⟨0, 7⟩]⟩,
        ⟨[("labelName", "1")], [⟨0, 7⟩]⟩] : List SeriesF)[i].lbls ≠
      ([⟨[("labelName", "0")], [⟨0, 7⟩]⟩,
        ⟨[("labelName", "1")], [⟨0, 7⟩]⟩] : List SeriesF)[j].lbls) ∧
    ∀ (i : Nat)
        (hi : i < ([⟨[("labelName", "0")], [⟨0, 7⟩]⟩,
                    ⟨[("labelName", "1")], [⟨0, 7⟩]⟩] : List SeriesF).length),
      ([⟨[("labelName", "0")], [⟨0, 7⟩]⟩,
        ⟨[("labelName", "1")], [⟨0, 7⟩]⟩] : List SeriesF)[i].lbls =
        (defaultLabelName, itoa i) :: labelTail 1 :=
  C10_pairwise_distinct_labels (fun _ => 7) 2 1 0 1 _ (by decide) (by decide) (by decide)

/-! ## Claims about the iterator -/

theorem runNext_list (S : List Sample) (m : Nat) :
    (runNext (newListSeriesIterator S) m).list = S := by
  induction m with
  | zero => rfl
  | succ m ih => simp [runNext, ListSeriesIterator.Next, ih]

theorem runNext_idx (S : List Sample) (m : Nat) :
    (runNext (newListSeriesIterator S) m).idx = (m : Int) - 1 := by
  induction m with
  | zero => rfl
  | succ m ih =>
    show ((runNext (newListSeriesIterator S) m).Next).2.idx = ((m : Int) + 1) - 1
    simp only [ListSeriesIterator.Next, ih]
    omega

/-- Claim **C6**: starting a fresh iterator on a non-empty sample list `S`, the
call of `Next` made after `i` earlier calls succeeds exactly when
`i < |S|` (so `Next` succeeds exactly `|S|` times, in order), and after
the `i`-th successful `Next` (i.e. `i+1` calls), `At` returns `S[i]`. -/
theorem C6_iterator_order (S : List Sample) (i : Nat) (hne : S ≠ []) (hi : i < S.length) :
    ((runNext (newListSeriesIterator S) i).Next).1 = true ∧
    (∀ j : Nat, S.length ≤ j → ((runNext (newListSeriesIterator S) j).Next).1 = false) ∧
    (runNext (newListSeriesIterator S) (i + 1)).At = some (S[i].t, S[i].v) := by
  refine ⟨?_, ?_, ?_⟩
  · simp only [ListSeriesIterator.Next, runNext_idx, runNext_list]
    rw [decide_eq_true_eq]
    omega
  · intro j hj
    simp only [ListSeriesIterator.Next, runNext_idx, runNext_list]
    rw [decide_eq_false_iff_not]
    omega
  · have hidx := runNext_idx S (i + 1)
    have hlist := runNext_list S (i + 1)
    unfold ListSeriesIterator.At
    rw [hidx, hlist, if_pos (by omega)]
    have htn : (((i + 1 : Nat) : Int) - 1).toNat = i := by omega
    rw [htn, List.getElem?_eq_getElem hi]
    rfl

/-- Closed witness for `C6_iterator_order` on a two-element list. -/
theorem C6_iterator_order_witness :
    ([⟨3, 5⟩, ⟨4, 6⟩] : List Sample) ≠ [] ∧ 1 < ([⟨3, 5⟩, ⟨4, 6⟩] : List Sample).length ∧
    (((runNext (newListSeriesIterator [⟨3, 5⟩, ⟨4, 6⟩]) 1).Next).1 = true ∧
      (∀ j : Nat, ([⟨3, 5⟩, ⟨4, 6⟩] : List Sample).length ≤ j →
        ((runNext (newListSeriesIterator [⟨3, 5⟩, ⟨4, 6⟩]) j).Next).1 = false) ∧
      (runNext (newListSeriesIterator [⟨3, 5⟩, ⟨4, 6⟩]) 2).At =
        some (([⟨3, 5⟩, ⟨4, 6⟩] : List Sample)[1].t, ([⟨3, 5⟩, ⟨4, 6⟩] : List Sample)[1].v)) :=
  ⟨by decide, by decide, C6_iterator_order [⟨3, 5⟩, ⟨4, 6⟩] 1 (by decide) (by decide)⟩

/-- Claim **C1 (code bug demonstrated)**: on the sorted list with timestamps
`10, 20, 30, 40`, `Seek 30` lands on index 2 (correct, since the search
starts at index 0), but the subsequent `Seek 35` returns `true` with the
cursor on index **1** — lower than the previous position 2 — and `At`
then yields the sample with timestamp 20 < 35.  The binary search itself
runs over `[position, length)`, but `it.idx = sort.Search(...)` stores the
*relative* offset instead of `it.idx + sort.Search(...)`, so the claimed
postcondition (first sample with timestamp ≥ target, never below the
current position) fails. -/
theorem C1_seek_misassigns_relative_index :
    (((newListSeriesIterator [⟨10, 0⟩, ⟨20, 0⟩, ⟨30, 0⟩, ⟨40, 0⟩]).Seek 30).1 = true ∧
     ((newListSeriesIterator [⟨10, 0⟩, ⟨20, 0⟩, ⟨30, 0⟩, ⟨40, 0⟩]).Seek 30).2.idx = 2) ∧
    ((((newListSeriesIterator [⟨10, 0⟩, ⟨20, 0⟩, ⟨30, 0⟩, ⟨40, 0⟩]).Seek 30).2.Seek 35).1
        = true ∧
     (((newListSeriesIterator [⟨10, 0⟩, ⟨20, 0⟩, ⟨30, 0⟩, ⟨40, 0⟩]).Seek 30).2.Seek 35).2.idx
        = 1 ∧
     (((newListSeriesIterator [⟨10, 0⟩, ⟨20, 0⟩, ⟨30, 0⟩, ⟨40, 0⟩]).Seek 30).2.Seek 35).2.At
        = some (20, 0)) := by
  decide

/-- Claim **C2 (code bug demonstrated)**: with the cursor on index 2 (timestamp
30), `Seek 15` — a target strictly below the current timestamp — does not
leave the position unchanged: the relative result 0 of the bounded binary
search is assigned as the new absolute index, moving the cursor from 2 to
0. -/
theorem C2_seek_backward_changes_position :
    ((newListSeriesIterator [⟨10, 0⟩, ⟨20, 0⟩, ⟨30, 0⟩, ⟨40, 0⟩]).Seek 30).2.idx = 2 ∧
    ((newListSeriesIterator [⟨10, 0⟩, ⟨20, 0⟩, ⟨30, 0⟩, ⟨40, 0⟩]).Seek 30).2.At
      = some (30, 0) ∧
    (15 : Int) < 30 ∧
    (((newListSeriesIterator [⟨10, 0⟩, ⟨20, 0⟩, ⟨30, 0⟩, ⟨40, 0⟩]).Seek 30).2.Seek 15).2.idx
      = 0 := by
  decide

/-! ## Claims about ingestion -/

theorem appendSample_fail (ap : Appender) (hfail : ∀ r t v, ap.fastOk r t v = false)
    (lbls : Labels) (st : Nat × List AppendOp) (s : Sample) :
    appendSample ap lbls st s =
      (ap.addRef lbls s.t s.v, st.2 ++ [AppendOp.full lbls s.t s.v]) := by
  obtain ⟨ref, log⟩ := st
  simp [appendSample, hfail]

theorem foldl_appendSample_fail (ap : Appender) (hfail : ∀ r t v, ap.fastOk r t v = false)
    (lbls : Labels) :
    ∀ (samples : List Sample) (ref : Nat) (log : List AppendOp),
      (samples.foldl (appendSample ap lbls) (ref, log)).2 =
        log ++ samples.map (fun s => AppendOp.full lbls s.t s.v) := by
  intro samples
  induction samples with
  | nil => intro ref log; simp
  | cons s ss ih =>
    intro ref log
    rw [List.foldl_cons, appendSample_fail ap hfail lbls (ref, log) s, ih]
    simp

theorem foldl_appendSeries_fail (ap : Appender) (hfail : ∀ r t v, ap.fastOk r t v = false) :
    ∀ (series : List SeriesF) (log : List AppendOp),
      series.foldl (appendSeries ap) log =
        log ++ series.flatMap (fun f =>
          f.samples.map (fun s => AppendOp.full f.lbls s.t s.v)) := by
  intro series
  induction series with
  | nil => intro log; simp
  | cons f fs ih =>
    intro log
    rw [List.foldl_cons]
    show fs.foldl (appendSeries ap) (appendSeries ap log f) = _
    rw [ih, appendSeries, foldl_appendSample_fail ap hfail]
    simp

/-- Claim **C5**: when the fast-append primitive fails for every sample (oracle
`fastOk` constantly `false`), `createHead` still appends every sample of
every series exactly once via the full label-keyed `Add` — the append log
is precisely the samples of all fixtures, in order, each tagged with its
series' label set — and `Commit` runs exactly once, after all fixtures. -/
theorem C5_full_append_fallback (ap : Appender) (series : List SeriesF)
    (hfail : ∀ r t v, ap.fastOk r t v = false) :
    (createHead ap series).log =
      series.flatMap (fun f => f.samples.map (fun s => AppendOp.full f.lbls s.t s.v)) ∧
    (createHead ap series).commits = 1 := by
  refine ⟨?_, rfl⟩
  show series.foldl (appendSeries ap) [] = _
  rw [foldl_appendSeries_fail ap hfail]
  simp

/-- Closed witness for `C5_full_append_fallback`: one two-sample series,
fast append always failing. -/
theorem C5_full_append_fallback_witness :
    (createHead ⟨fun _ _ _ => false, fun _ _ _ => 9⟩
        [⟨[("labelName", "0")], [⟨1, 5⟩, ⟨2, 6⟩]⟩]).log =
      ([⟨[("labelName", "0")], [⟨1, 5⟩, ⟨2, 6⟩]⟩] : List SeriesF).flatMap (fun f =>
        f.samples.map (fun s => AppendOp.full f.lbls s.t s.v)) ∧
    (createHead ⟨fun _ _ _ => false, fun _ _ _ => 9⟩
        [⟨[("labelName", "0")], [⟨1, 5⟩, ⟨2, 6⟩]⟩]).commits = 1 :=
  C5_full_append_fallback ⟨fun _ _ _ => false, fun _ _ _ => 9⟩
    [⟨[("labelName", "0")], [⟨1, 5⟩, ⟨2, 6⟩]⟩] (fun _ _ _ => rfl)

theorem appendSample_time (ap : Appender) (lbls : Labels) (st : Nat × List AppendOp)
    (s : Sample) :
    ((appendSample ap lbls st s).2).map AppendOp.time = st.2.map AppendOp.time ++ [s.t] := by
  obtain ⟨ref, log⟩ := st
  simp only [appendSample]
  split <;> simp [AppendOp.time]

theorem foldl_appendSample_time (ap : Appender) (lbls : Labels) :
    ∀ (samples : List Sample) (st : Nat × List AppendOp),
      (((samples.foldl (appendSample ap lbls) st).2).map AppendOp.time) =
        st.2.map AppendOp.time ++ samples.map Sample.t := by
  intro samples
  induction samples with
  | nil => intro st; simp
  | cons s ss ih =>
    intro st
    rw [List.foldl_cons, ih (appendSample ap lbls st s), appendSample_time]
    simp

/-- Independently of how the fast-append oracle behaves, every sample of
every fixture is appended exactly once, so the head observes exactly the
fixtures' timestamps, in order. -/
theorem createHead_times (ap : Appender) (series : List SeriesF) :
    (createHead ap series).log.map AppendOp.time =
      (series.flatMap (fun f => f.samples)).map Sample.t := by
  show (series.foldl (appendSeries ap) []).map AppendOp.time = _
  have key : ∀ (ss : List SeriesF) (log : List AppendOp),
      (ss.foldl (appendSeries ap) log).map AppendOp.time =
        log.map AppendOp.time ++ (ss.flatMap (fun f => f.samples)).map Sample.t := by
    intro ss
    induction ss with
    | nil => intro log; simp
    | cons f fs ih =>
      intro log
      rw [List.foldl_cons]
      show ((fs.foldl (appendSeries ap) (appendSeries ap log f)).map AppendOp.time) = _
      rw [ih, appendSeries, foldl_appendSample_time]
      simp
  rw [key]
  simp

/-- Claim **C7**: if the ingested fixtures' maximum observed timestamp is `M`,
`CreateBlock` requests compaction with upper bound exactly `M + 1`, and
`M` itself lies inside the requested half-open interval
`[req.mint, req.maxt)`. -/
theorem C7_halfopen_upper_bound (ap : Appender) (series : List SeriesF) (M : Int)
    (hM : ((series.flatMap (fun f => f.samples)).map Sample.t).max? = some M) :
    ∃ req, CreateBlock ap series = some req ∧
      req.maxt = M + 1 ∧ req.mint ≤ M ∧ M < req.maxt := by
  have hlog := createHead_times ap series
  have hne : ((series.flatMap (fun f => f.samples)).map Sample.t) ≠ [] := by
    intro h
    rw [h] at hM
    simp at hM
  obtain ⟨mn, hmn⟩ : ∃ mn, ((series.flatMap (fun f => f.samples)).map Sample.t).min? = some mn := by
    cases h : ((series.flatMap (fun f => f.samples)).map Sample.t).min? with
    | none => exact absurd (List.min?_eq_none_iff.mp h) hne
    | some mn => exact ⟨mn, rfl⟩
  have hmem : M ∈ (series.flatMap (fun f => f.samples)).map Sample.t :=
    List.max?_mem (fun a b => max_choice a b) hM
  have hmnle : mn ≤ M :=
    ((List.le_min?_iff (fun a b c => le_min_iff) hmn).mp le_rfl) M hmem
  refine ⟨⟨mn, M + 1⟩, ?_, rfl, hmnle, by show M < M + 1; omega⟩
  simp only [CreateBlock, headMinTime, headMaxTime]
  rw [hlog, hmn, hM]

/-- Closed witness for `C7_halfopen_upper_bound`: two fixtures whose
maximum timestamp is 4; the requested bounds are `[1, 5)`. -/
theorem C7_halfopen_upper_bound_witness :
    ((([⟨[("labelName", "0")], [⟨1, 5⟩, ⟨4, 6⟩]⟩,
        ⟨[("labelName", "1")], [⟨2, 7⟩]⟩] : List SeriesF).flatMap
          (fun f => f.samples)).map Sample.t).max? = some 4 ∧
    ∃ req, CreateBlock ⟨fun _ _ _ => true, fun _ _ _ => 9⟩
        [⟨[("labelName", "0")], [⟨1, 5⟩, ⟨4, 6⟩]⟩,
         ⟨[("labelName", "1")], [⟨2, 7⟩]⟩] = some req ∧
      req.maxt = 4 + 1 ∧ req.mint ≤ 4 ∧ (4 : Int) < req.maxt :=
  ⟨by decide,
    C7_halfopen_upper_bound ⟨fun _ _ _ => true, fun _ _ _ => 9⟩
      [⟨[("labelName", "0")], [⟨1, 5⟩, ⟨4, 6⟩]⟩,
       ⟨[("labelName", "1")], [⟨2, 7⟩]⟩] 4 (by decide)⟩
